import Mathlib

/-!
# Verification of the `fuel-tx` transaction builder (`src/fuel-tx/src/builder.rs`)

Shallow embedding of `TransactionBuilder<Tx>` and its operations.  Machine
integers (`u8`, `u64`/`Word`) are modelled as `Nat` with the explicit bounds
the source checks (`u8::try_from(..)` fails above 255).  Byte arrays
(`Vec<u8>`, `Bytes32`, keys, salts, ids) are modelled as `Nat` or `List Nat`;
fallible operations (Rust panics via `expect`) return `Option`.

Types of the repository that are external to the provided sources
(`Witness`, `Input`, `SecretKey`, `StorageSlot`, `Policies`, the `Signable`
and `Cacheable` traits) are modelled from the spec, and are marked as such in
their doc comments.
-/

namespace FuelTx

/-- A witness (`Witness` wraps `Vec<u8>`); `Witness::default()` is the empty
byte vector. -/
abbrev Witness := List Nat

/-- `Witness::default()`: the empty byte vector. -/
def Witness.default : Witness := []

/-- Modelled from the spec: `SecretKey` (external type) is an abstract value
with a total byte order; we model it as `Nat`. -/
abbrev SecretKey := Nat

/-- Modelled from the spec: public-key derivation from a secret key (external
`secret.public_key()`); abstract injective derivation. -/
def publicKey (k : SecretKey) : Nat := k

/-- Modelled from the spec: `Input::owner(&pk)`, owner-address derivation from
a public key (external); abstract injective derivation. -/
def ownerAddress (pk : Nat) : Nat := pk

/-- Modelled from the spec: the signature bytes produced by the per-chain-id
signing operation for a key (external `Signable::sign_inputs` collaborator);
an abstract deterministic function of the key and the chain id. -/
def signatureBytes (k : SecretKey) (chainId : Nat) : Witness := [k, chainId]

/-- Modelled from the spec: transaction inputs (external `Input` enum); only
the variants the builder constructs or inspects are distinguished. -/
inductive Input where
  | coinSigned (utxo_id : Nat) (owner : Nat) (amount : Nat) (asset_id : Nat)
      (tx_pointer : Nat × Nat) (witness_index : Nat)
  | messageSigned (sender : Nat) (recipient : Nat) (nonce : Nat) (amount : Nat)
      (data : List Nat) (witness_index : Nat)
  | contract (contract_id : Nat)
  deriving DecidableEq

/-- Outputs are never inspected by the builder; modelled as an abstract id. -/
abbrev Output := Nat

/-- Modelled from the spec: a storage slot, a key/value pair of 32-byte words;
`Create::create` sorts the slot list ascending by key. -/
structure StorageSlot where
  key : Nat
  value : Nat
  deriving DecidableEq

/-- Order on storage slots used by the constructor's sort: ascending by key. -/
def slotLe (a b : StorageSlot) : Prop := a.key ≤ b.key

instance : DecidableRel slotLe := fun a b => Nat.decLe a.key b.key

instance : IsTotal StorageSlot slotLe := ⟨fun a b => Nat.le_total a.key b.key⟩

instance : IsTrans StorageSlot slotLe := ⟨fun _ _ _ => Nat.le_trans⟩

/-- Modelled from the spec: the policy fields (`Policies`, external type):
named fee/limit fields, each optionally set. -/
structure Policies where
  tip : Option Nat
  maturity : Option Nat
  witness_limit : Option Nat
  max_fee : Option Nat
  deriving DecidableEq

/-- `Policies::new()`: all policy fields unset. -/
def Policies.new : Policies := ⟨none, none, none, none⟩

/-- `Policies::with_max_fee`. -/
def Policies.with_max_fee (p : Policies) (v : Nat) : Policies :=
  { p with max_fee := some v }

/-- Consensus parameters (`ConsensusParameters`): named subgroups consumed as
plain configuration data; each subgroup is abstract to the builder. -/
structure ConsensusParameters where
  tx_params : Nat
  predicate_params : Nat
  script_params : Nat
  contract_params : Nat
  fee_params : Nat
  chain_id : Nat
  base_asset_id : Nat
  gas_costs : Nat
  deriving DecidableEq

/-- `ConsensusParameters::standard()`: the documented default profile. -/
def ConsensusParameters.standard : ConsensusParameters := ⟨0, 0, 0, 0, 0, 0, 0, 0⟩

/-- The `Script` transaction variant, fields as in the source. -/
structure Script where
  script_gas_limit : Nat
  script : List Nat
  script_data : List Nat
  policies : Policies
  inputs : List Input
  outputs : List Output
  witnesses : List Witness
  receipts_root : Nat
  metadata : Option Nat
  deriving DecidableEq

/-- The `Create` transaction variant, fields as in the source. -/
structure Create where
  bytecode_length : Nat
  bytecode_witness_index : Nat
  salt : Nat
  storage_slots : List StorageSlot
  policies : Policies
  inputs : List Input
  outputs : List Output
  witnesses : List Witness
  metadata : Option Nat
  deriving DecidableEq

/-- The `Mint` transaction variant, fields as in the source; note it has no
input/output/witness sequences. -/
structure Mint where
  tx_pointer : Nat × Nat
  input_contract : Nat
  output_contract : Nat
  mint_amount : Nat
  mint_asset_id : Nat
  gas_price : Nat
  metadata : Option Nat
  deriving DecidableEq

/-- The signing-key ledger (`BTreeMap<SecretKey, u8>`), modelled as an
association list kept strictly sorted by key; iteration order is list order,
which for ledgers built by `insert` is ascending key order. -/
abbrev SignKeys := List (SecretKey × Nat)

/-- Lookup in the ledger (`BTreeMap::get`-like part of `entry`). -/
def SignKeys.find? : SignKeys → SecretKey → Option Nat
  | [], _ => none
  | (k', v') :: rest, k => if k = k' then some v' else SignKeys.find? rest k

/-- Ordered insertion into the ledger (`entry(k).or_insert_with(..)`): a new
key is placed at its sorted position; an existing key keeps its old value. -/
def SignKeys.insert : SignKeys → SecretKey → Nat → SignKeys
  | [], k, v => [(k, v)]
  | (k', v') :: rest, k, v =>
    if k < k' then (k, v) :: (k', v') :: rest
    else if k = k' then (k', v') :: rest
    else (k', v') :: SignKeys.insert rest k v

/-- `TransactionBuilder<Tx>`: draft transaction, owned consensus-parameter
snapshot, and signing-key ledger. -/
structure TransactionBuilder (Tx : Type) where
  tx : Tx
  params : ConsensusParameters
  sign_keys : SignKeys

/-- `field::Witnesses`: access to a transaction's witness sequence, with the
law that writing then reading gives back what was written. -/
class Witnesses (Tx : Type) where
  witnesses : Tx → List Witness
  set_witnesses : Tx → List Witness → Tx
  witnesses_set : ∀ t ws, witnesses (set_witnesses t ws) = ws

/-- Modelled from the spec: the `Signable` capability (external trait) —
`sign_inputs` writes the key's signature into the witness slot referenced by
every input owned by the key. -/
class Signable (Tx : Type) where
  sign_inputs : Tx → SecretKey → Nat → Tx

/-- Modelled from the spec: the `Cacheable` capability (external trait) —
`precompute` caches canonical derived metadata for the chain id on the body,
a deterministic computation; the builder treats its failure as fatal, so the
model is total. -/
class Cacheable (Tx : Type) where
  precompute : Tx → Nat → Tx

/-- Signing for `Script`/`Create` input lists: fold over the inputs, writing
`signatureBytes` into the witness slot of every input owned by the key. -/
def signedWitnesses (ins : List Input) (k : SecretKey) (c : Nat)
    (ws : List Witness) : List Witness :=
  ins.foldl (fun acc i =>
    match i with
    | .coinSigned _ owner _ _ _ wi =>
        if owner = ownerAddress (publicKey k) then acc.set wi (signatureBytes k c) else acc
    | .messageSigned _ recipient _ _ _ wi =>
        if recipient = ownerAddress (publicKey k) then acc.set wi (signatureBytes k c) else acc
    | .contract _ => acc) ws

instance : Witnesses Script where
  witnesses t := t.witnesses
  set_witnesses t ws := { t with witnesses := ws }
  witnesses_set _ _ := rfl

instance : Witnesses Create where
  witnesses t := t.witnesses
  set_witnesses t ws := { t with witnesses := ws }
  witnesses_set _ _ := rfl

instance : Signable Script where
  sign_inputs t k c := { t with witnesses := signedWitnesses t.inputs k c t.witnesses }

instance : Signable Create where
  sign_inputs t k c := { t with witnesses := signedWitnesses t.inputs k c t.witnesses }

instance : Cacheable Script where
  precompute t c := { t with metadata := some c }

instance : Cacheable Create where
  precompute t c := { t with metadata := some c }

instance : Cacheable Mint where
  precompute t c := { t with metadata := some c }

namespace TransactionBuilder

/-- `TransactionBuilder::with_tx`: fresh ledger, standard parameters. -/
def with_tx {Tx : Type} (tx : Tx) : TransactionBuilder Tx :=
  { tx := tx, params := ConsensusParameters.standard, sign_keys := [] }

/-- `TransactionBuilder::<Script>::script`. -/
def script (s : List Nat) (script_data : List Nat) : TransactionBuilder Script :=
  with_tx
    { script_gas_limit := 0
      script := s
      script_data := script_data
      policies := Policies.new.with_max_fee 0
      inputs := []
      outputs := []
      witnesses := []
      receipts_root := 0
      metadata := none }

/-- `TransactionBuilder::<Create>::create`: sorts the storage slots, sets the
bytecode length to `len / 4`, the bytecode witness index to 0, and pushes the
bytecode as witness slot 0. -/
def create (bytecode : Witness) (salt : Nat) (storage_slots : List StorageSlot) :
    TransactionBuilder Create :=
  let sorted_slots := List.insertionSort slotLe storage_slots
  let tx : Create :=
    { bytecode_length := 0
      bytecode_witness_index := 0
      salt := salt
      storage_slots := sorted_slots
      policies := Policies.new.with_max_fee 0
      inputs := []
      outputs := []
      witnesses := []
      metadata := none }
  let tx := { tx with bytecode_length := bytecode.length / 4, bytecode_witness_index := 0 }
  let tx := { tx with witnesses := tx.witnesses ++ [bytecode] }
  with_tx tx

/-- `TransactionBuilder::<Mint>::mint`. -/
def mint (block_height : Nat) (tx_index : Nat) (input_contract : Nat)
    (output_contract : Nat) (mint_amount : Nat) (mint_asset_id : Nat)
    (gas_price : Nat) : TransactionBuilder Mint :=
  with_tx
    { tx_pointer := (block_height, tx_index)
      input_contract := input_contract
      output_contract := output_contract
      mint_amount := mint_amount
      mint_asset_id := mint_asset_id
      gas_price := gas_price
      metadata := none }

/-- `get_chain_id`. -/
def get_chain_id {Tx : Type} (b : TransactionBuilder Tx) : Nat := b.params.chain_id

variable {Tx : Type}

/-- `upsert_secret`: `u8::try_from(self.witnesses().len())` panics (modelled
as `none`) when the witness count exceeds 255; otherwise a known key returns
its recorded index with the builder untouched, and an unknown key appends one
default witness and records the pre-append length as its index. -/
def upsert_secret [Witnesses Tx] (b : TransactionBuilder Tx) (k : SecretKey) :
    Option (Nat × TransactionBuilder Tx) :=
  let wlen := (Witnesses.witnesses b.tx).length
  if wlen ≤ 255 then
    match b.sign_keys.find? k with
    | some i => some (i, b)
    | none =>
        some (wlen,
          { b with
              tx := Witnesses.set_witnesses b.tx
                (Witnesses.witnesses b.tx ++ [Witness.default])
              sign_keys := b.sign_keys.insert k wlen })
  else none

/-- `add_witness`. -/
def add_witness [Witnesses Tx] (b : TransactionBuilder Tx) (w : Witness) :
    TransactionBuilder Tx :=
  { b with tx := Witnesses.set_witnesses b.tx (Witnesses.witnesses b.tx ++ [w]) }

/-- `finalize_inner`: clone the draft, sign with every ledger key in ledger
order using the snapshot's chain id, then precompute the cache; the builder
itself (`&self`) is untouched. -/
def finalize_inner [Signable Tx] [Cacheable Tx] (b : TransactionBuilder Tx) : Tx :=
  let tx := b.tx
  let tx := b.sign_keys.foldl (fun t kv => Signable.sign_inputs t kv.1 b.get_chain_id) tx
  Cacheable.precompute tx b.get_chain_id

/-- `finalize_without_signature_inner`: clone the draft and precompute only. -/
def finalize_without_signature_inner [Cacheable Tx] (b : TransactionBuilder Tx) : Tx :=
  Cacheable.precompute b.tx b.get_chain_id

/-- A call of `finalize_inner` through `&self`: the returned transaction
together with the (unchanged) builder the caller retains. -/
def finalize_call [Signable Tx] [Cacheable Tx] (b : TransactionBuilder Tx) :
    Tx × TransactionBuilder Tx :=
  (b.finalize_inner, b)

/-- A call of `finalize_without_signature_inner` through `&self`. -/
def finalize_without_signature_call [Cacheable Tx] (b : TransactionBuilder Tx) :
    Tx × TransactionBuilder Tx :=
  (b.finalize_without_signature_inner, b)

/-- `Finalizable<Mint>::finalize`: precompute only, no signing. -/
def mint_finalize (b : TransactionBuilder Mint) : Mint :=
  Cacheable.precompute b.tx b.get_chain_id

/-- `Finalizable<Mint>::finalize_without_signature` delegates to `finalize`. -/
def mint_finalize_without_signature (b : TransactionBuilder Mint) : Mint :=
  b.mint_finalize

/-- A call of `mint_finalize` through `&self`. -/
def mint_finalize_call (b : TransactionBuilder Mint) : Mint × TransactionBuilder Mint :=
  (b.mint_finalize, b)

/-- Registering a key `n` times in a row (`upsert_secret` repeatedly);
`none` when some call panics (or when `n = 0`, no registration). -/
def upsert_iter [Witnesses Tx] (b : TransactionBuilder Tx) (k : SecretKey) :
    Nat → Option (Nat × TransactionBuilder Tx)
  | 0 => none
  | 1 => b.upsert_secret k
  | n + 2 =>
      match upsert_iter b k (n + 1) with
      | some (_, b') => b'.upsert_secret k
      | none => none

/-- Registering a list of keys in order, collecting the returned indices. -/
def registerAll [Witnesses Tx] :
    List SecretKey → TransactionBuilder Tx → Option (List Nat × TransactionBuilder Tx)
  | [], b => some ([], b)
  | k :: ks, b =>
      match b.upsert_secret k with
      | none => none
      | some (i, b') =>
          match registerAll ks b' with
          | none => none
          | some (is, b'') => some (i :: is, b'')

end TransactionBuilder

/-- The mutating operations available on a `Script`/`Create` builder
(`Tx: Buildable`), used to quantify over arbitrary builder histories.
Key-registering operations may panic (`Option`), per `upsert_secret`. -/
inductive Op where
  | add_input (i : Input)
  | add_output (o : Output)
  | add_witness (w : Witness)
  | sign_key (k : SecretKey)
  | unsigned_coin (k : SecretKey) (utxo_id : Nat) (amount : Nat) (asset_id : Nat)
      (tx_pointer : Nat × Nat)
  | unsigned_message (k : SecretKey) (sender : Nat) (nonce : Nat) (amount : Nat)
      (data : List Nat)
  | tip (v : Nat)
  | maturity (v : Nat)
  | witness_limit (v : Nat)
  | max_fee_limit (v : Nat)
  | with_chain_id (c : Nat)
  | with_params (p : ConsensusParameters)
  deriving DecidableEq

namespace TransactionBuilder

/-- One builder operation on a `Script` builder, as the source performs it. -/
def applyOpScript (b : TransactionBuilder Script) : Op → Option (TransactionBuilder Script)
  | .add_input i => some { b with tx := { b.tx with inputs := b.tx.inputs ++ [i] } }
  | .add_output o => some { b with tx := { b.tx with outputs := b.tx.outputs ++ [o] } }
  | .add_witness w => some (b.add_witness w)
  | .sign_key k => (b.upsert_secret k).map (·.2)
  | .unsigned_coin k u a aid tp =>
      (b.upsert_secret k).map fun p =>
        { p.2 with
            tx := { p.2.tx with
              inputs := p.2.tx.inputs ++
                [Input.coinSigned u (ownerAddress (publicKey k)) a aid tp p.1] } }
  | .unsigned_message k s n a d =>
      (b.upsert_secret k).map fun p =>
        { p.2 with
            tx := { p.2.tx with
              inputs := p.2.tx.inputs ++
                [Input.messageSigned s (ownerAddress (publicKey k)) n a d p.1] } }
  | .tip v => some { b with tx := { b.tx with policies := { b.tx.policies with tip := some v } } }
  | .maturity v =>
      some { b with tx := { b.tx with policies := { b.tx.policies with maturity := some v } } }
  | .witness_limit v =>
      some { b with tx := { b.tx with policies := { b.tx.policies with witness_limit := some v } } }
  | .max_fee_limit v =>
      some { b with tx := { b.tx with policies := { b.tx.policies with max_fee := some v } } }
  | .with_chain_id c => some { b with params := { b.params with chain_id := c } }
  | .with_params p => some { b with params := p }

/-- One builder operation on a `Create` builder, as the source performs it. -/
def applyOpCreate (b : TransactionBuilder Create) : Op → Option (TransactionBuilder Create)
  | .add_input i => some { b with tx := { b.tx with inputs := b.tx.inputs ++ [i] } }
  | .add_output o => some { b with tx := { b.tx with outputs := b.tx.outputs ++ [o] } }
  | .add_witness w => some (b.add_witness w)
  | .sign_key k => (b.upsert_secret k).map (·.2)
  | .unsigned_coin k u a aid tp =>
      (b.upsert_secret k).map fun p =>
        { p.2 with
            tx := { p.2.tx with
              inputs := p.2.tx.inputs ++
                [Input.coinSigned u (ownerAddress (publicKey k)) a aid tp p.1] } }
  | .unsigned_message k s n a d =>
      (b.upsert_secret k).map fun p =>
        { p.2 with
            tx := { p.2.tx with
              inputs := p.2.tx.inputs ++
                [Input.messageSigned s (ownerAddress (publicKey k)) n a d p.1] } }
  | .tip v => some { b with tx := { b.tx with policies := { b.tx.policies with tip := some v } } }
  | .maturity v =>
      some { b with tx := { b.tx with policies := { b.tx.policies with maturity := some v } } }
  | .witness_limit v =>
      some { b with tx := { b.tx with policies := { b.tx.policies with witness_limit := some v } } }
  | .max_fee_limit v =>
      some { b with tx := { b.tx with policies := { b.tx.policies with max_fee := some v } } }
  | .with_chain_id c => some { b with params := { b.params with chain_id := c } }
  | .with_params p => some { b with params := p }

/-- Run a sequence of operations on a `Script` builder. -/
def runScript : List Op → TransactionBuilder Script → Option (TransactionBuilder Script)
  | [], b => some b
  | op :: ops, b =>
      match b.applyOpScript op with
      | none => none
      | some b' => runScript ops b'

/-- Run a sequence of operations on a `Create` builder. -/
def runCreate : List Op → TransactionBuilder Create → Option (TransactionBuilder Create)
  | [], b => some b
  | op :: ops, b =>
      match b.applyOpCreate op with
      | none => none
      | some b' => runCreate ops b'

end TransactionBuilder

/-- The operations available on a `Mint` builder: only parameter replacement
(the `impl<Tx>` block); `Mint` has no input/output/witness mutation and no
signing-key registration. -/
inductive MintOp where
  | with_params (p : ConsensusParameters)
  | with_tx_params (v : Nat)
  | with_predicate_params (v : Nat)
  | with_script_params (v : Nat)
  | with_contract_params (v : Nat)
  | with_fee_params (v : Nat)
  | with_base_asset_id (v : Nat)
  | with_gas_costs (v : Nat)
  deriving DecidableEq

namespace TransactionBuilder

/-- One builder operation on a `Mint` builder (never fails). -/
def applyOpMint (b : TransactionBuilder Mint) : MintOp → TransactionBuilder Mint
  | .with_params p => { b with params := p }
  | .with_tx_params v => { b with params := { b.params with tx_params := v } }
  | .with_predicate_params v => { b with params := { b.params with predicate_params := v } }
  | .with_script_params v => { b with params := { b.params with script_params := v } }
  | .with_contract_params v => { b with params := { b.params with contract_params := v } }
  | .with_fee_params v => { b with params := { b.params with fee_params := v } }
  | .with_base_asset_id v => { b with params := { b.params with base_asset_id := v } }
  | .with_gas_costs v => { b with params := { b.params with gas_costs := v } }

/-- Run a sequence of operations on a `Mint` builder. -/
def runMint : List MintOp → TransactionBuilder Mint → TransactionBuilder Mint
  | [], b => b
  | op :: ops, b => runMint ops (b.applyOpMint op)

end TransactionBuilder

open TransactionBuilder

/-- Every witness index recorded in the signing-key ledger points at an
existing slot of the draft's witness sequence. -/
def LedgerInv {Tx : Type} [Witnesses Tx] (b : TransactionBuilder Tx) : Prop :=
  ∀ kv ∈ b.sign_keys, kv.2 < (Witnesses.witnesses b.tx).length

/-- The ledger's association list is strictly sorted by key, so iterating it
visits keys in ascending key-byte order. -/
def LedgerSorted {Tx : Type} (b : TransactionBuilder Tx) : Prop :=
  b.sign_keys.Pairwise (fun p q => p.1 < q.1)

/-- An operation history that never pushes an explicit witness. -/
def noExplicitWitness (ops : List Op) : Prop :=
  ∀ w, Op.add_witness w ∉ ops

/-- A `Script` builder, 255 plain witnesses pushed: the first registration of
a key still succeeds (index 255) but makes any following registration panic. -/
def c1Base : TransactionBuilder Script :=
  (fun b => b.add_witness Witness.default)^[255] (script [] [])

/-- The builder after the first (successful) registration of key 0 on
`c1Base`. -/
def c1After : TransactionBuilder Script :=
  (Option.map (·.2) (c1Base.upsert_secret 0)).getD c1Base

/-- A `Script` builder with 256 plain witnesses and zero registered signing
keys: registration panics although no distinct key is near the bound. -/
def c2Base : TransactionBuilder Script :=
  (fun b => b.add_witness Witness.default)^[256] (script [] [])

/-- The `Script` builder obtained by registering key 5 on a fresh builder. -/
def c1W : TransactionBuilder Script :=
  { tx :=
      { script_gas_limit := 0
        script := []
        script_data := []
        policies := Policies.new.with_max_fee 0
        inputs := []
        outputs := []
        witnesses := [Witness.default]
        receipts_root := 0
        metadata := none }
    params := ConsensusParameters.standard
    sign_keys := [(5, 0)] }

/-- The `Create` builder obtained by registering key 5 on a fresh builder
with bytecode `[7]`: the key gets index 1, slot 0 being the bytecode. -/
def c1WC : TransactionBuilder Create :=
  { tx :=
      { bytecode_length := 0
        bytecode_witness_index := 0
        salt := 0
        storage_slots := []
        policies := Policies.new.with_max_fee 0
        inputs := []
        outputs := []
        witnesses := [[7], Witness.default]
        metadata := none }
    params := ConsensusParameters.standard
    sign_keys := [(5, 1)] }

/-! ## Instance-unfolding lemmas -/

@[simp]
theorem witnesses_script_eq (t : Script) : Witnesses.witnesses t = t.witnesses := rfl

@[simp]
theorem set_witnesses_script_eq (t : Script) (ws : List Witness) :
    Witnesses.set_witnesses t ws = { t with witnesses := ws } := rfl

@[simp]
theorem witnesses_create_eq (t : Create) : Witnesses.witnesses t = t.witnesses := rfl

@[simp]
theorem set_witnesses_create_eq (t : Create) (ws : List Witness) :
    Witnesses.set_witnesses t ws = { t with witnesses := ws } := rfl

@[simp]
theorem precompute_script_eq (t : Script) (c : Nat) :
    Cacheable.precompute t c = { t with metadata := some c } := rfl

@[simp]
theorem precompute_create_eq (t : Create) (c : Nat) :
    Cacheable.precompute t c = { t with metadata := some c } := rfl

@[simp]
theorem sign_inputs_script_eq (t : Script) (k : SecretKey) (c : Nat) :
    Signable.sign_inputs t k c =
      { t with witnesses := signedWitnesses t.inputs k c t.witnesses } := rfl

@[simp]
theorem sign_inputs_create_eq (t : Create) (k : SecretKey) (c : Nat) :
    Signable.sign_inputs t k c =
      { t with witnesses := signedWitnesses t.inputs k c t.witnesses } := rfl

/-! ## Ledger lemmas -/

theorem SignKeys.find?_insert_self (m : SignKeys) (k : SecretKey) (v : Nat)
    (h : m.find? k = none) : (m.insert k v).find? k = some v := by
  induction m with
  | nil => simp [SignKeys.insert, SignKeys.find?]
  | cons kv rest ih =>
    obtain ⟨k', v'⟩ := kv
    simp only [SignKeys.find?] at h
    by_cases hk : k = k'
    · simp [hk] at h
    · simp only [if_neg hk] at h
      simp only [SignKeys.insert]
      by_cases hlt : k < k'
      · simp [hlt, SignKeys.find?]
      · simp [hlt, hk, SignKeys.find?, ih h]

theorem SignKeys.find?_insert_ne (m : SignKeys) (k k' : SecretKey) (v : Nat)
    (hne : k' ≠ k) : (m.insert k v).find? k' = m.find? k' := by
  induction m with
  | nil => simp [SignKeys.insert, SignKeys.find?, hne]
  | cons kv rest ih =>
    obtain ⟨a, bv⟩ := kv
    simp only [SignKeys.insert]
    by_cases hlt : k < a
    · simp [hlt, SignKeys.find?, hne]
    · by_cases heq : k = a
      · simp [hlt, heq]
      · simp only [if_neg hlt, if_neg heq, SignKeys.find?]
        by_cases ha : k' = a
        · simp [ha]
        · simp [ha, ih]

theorem SignKeys.mem_insert (m : SignKeys) (k : SecretKey) (v : Nat) :
    ∀ kv ∈ m.insert k v, kv ∈ m ∨ kv = (k, v) := by
  induction m with
  | nil => simp [SignKeys.insert]
  | cons a rest ih =>
    obtain ⟨a1, a2⟩ := a
    intro kv hkv
    simp only [SignKeys.insert] at hkv
    by_cases hlt : k < a1
    · simp only [if_pos hlt, List.mem_cons] at hkv
      rcases hkv with h | h | h
      · exact Or.inr h
      · exact Or.inl (by simp [h])
      · exact Or.inl (List.mem_cons_of_mem _ h)
    · by_cases heq : k = a1
      · simp only [if_neg hlt, if_pos heq] at hkv
        exact Or.inl hkv
      · simp only [if_neg hlt, if_neg heq, List.mem_cons] at hkv
        rcases hkv with h | h
        · exact Or.inl (by simp [h])
        · rcases ih kv h with h' | h'
          · exact Or.inl (List.mem_cons_of_mem _ h')
          · exact Or.inr h'

theorem SignKeys.sorted_insert (m : SignKeys) (k : SecretKey) (v : Nat)
    (hs : m.Pairwise (fun p q => p.1 < q.1)) :
    (m.insert k v).Pairwise (fun p q => p.1 < q.1) := by
  induction m with
  | nil => simp [SignKeys.insert]
  | cons a rest ih =>
    obtain ⟨a1, a2⟩ := a
    rw [List.pairwise_cons] at hs
    obtain ⟨ha, hrest⟩ := hs
    simp only [SignKeys.insert]
    by_cases hlt : k < a1
    · simp only [if_pos hlt]
      refine List.Pairwise.cons ?_ (List.Pairwise.cons ha hrest)
      intro q hq
      rcases List.mem_cons.mp hq with h | h
      · simpa [h] using hlt
      · exact Nat.lt_trans hlt (ha q h)
    · by_cases heq : k = a1
      · simp only [if_neg hlt, if_pos heq]
        exact List.Pairwise.cons ha hrest
      · simp only [if_neg hlt, if_neg heq]
        refine List.Pairwise.cons ?_ (ih hrest)
        intro q hq
        rcases SignKeys.mem_insert rest k v q hq with h | h
        · exact ha q h
        · have hk : a1 < k :=
            Nat.lt_of_le_of_ne (Nat.le_of_not_lt hlt) fun hh => heq hh.symm
          simpa [h] using hk

/-! ## `upsert_secret` lemmas -/

namespace TransactionBuilder

variable {Tx : Type}

theorem upsert_secret_none_iff [Witnesses Tx] (b : TransactionBuilder Tx) (k : SecretKey) :
    b.upsert_secret k = none ↔ 255 < (Witnesses.witnesses b.tx).length := by
  by_cases h : (Witnesses.witnesses b.tx).length ≤ 255
  · have hn : ¬ 255 < (Witnesses.witnesses b.tx).length := by omega
    rcases hf : b.sign_keys.find? k with _ | i <;> simp [upsert_secret, h, hf, hn]
  · have hn : 255 < (Witnesses.witnesses b.tx).length := by omega
    simp [upsert_secret, h, hn]

theorem upsert_secret_known [Witnesses Tx] (b : TransactionBuilder Tx) (k : SecretKey)
    (i : Nat) (hf : b.sign_keys.find? k = some i)
    (hl : (Witnesses.witnesses b.tx).length ≤ 255) :
    b.upsert_secret k = some (i, b) := by
  simp [upsert_secret, hf, hl]

theorem upsert_secret_fresh [Witnesses Tx] (b : TransactionBuilder Tx) (k : SecretKey)
    (hf : b.sign_keys.find? k = none)
    (hl : (Witnesses.witnesses b.tx).length ≤ 255) :
    b.upsert_secret k = some ((Witnesses.witnesses b.tx).length,
      { b with
          tx := Witnesses.set_witnesses b.tx (Witnesses.witnesses b.tx ++ [Witness.default])
          sign_keys := b.sign_keys.insert k (Witnesses.witnesses b.tx).length }) := by
  simp [upsert_secret, hf, hl]

theorem upsert_secret_some [Witnesses Tx] {b : TransactionBuilder Tx} {k : SecretKey}
    {i : Nat} {b' : TransactionBuilder Tx} (h : b.upsert_secret k = some (i, b')) :
    (Witnesses.witnesses b.tx).length ≤ 255 ∧
    ((b.sign_keys.find? k = some i ∧ b' = b) ∨
     (b.sign_keys.find? k = none ∧ i = (Witnesses.witnesses b.tx).length ∧
      b'.tx = Witnesses.set_witnesses b.tx (Witnesses.witnesses b.tx ++ [Witness.default]) ∧
      b'.sign_keys = b.sign_keys.insert k (Witnesses.witnesses b.tx).length ∧
      b'.params = b.params)) := by
  by_cases hl : (Witnesses.witnesses b.tx).length ≤ 255
  · refine ⟨hl, ?_⟩
    rcases hf : b.sign_keys.find? k with _ | j
    · right
      rw [upsert_secret_fresh b k hf hl] at h
      rw [Option.some.injEq, Prod.mk.injEq] at h
      obtain ⟨hi, hb⟩ := h
      subst hb
      exact ⟨rfl, hi.symm, rfl, rfl, rfl⟩
    · left
      rw [upsert_secret_known b k j hf hl] at h
      rw [Option.some.injEq, Prod.mk.injEq] at h
      obtain ⟨hi, hb⟩ := h
      exact ⟨by rw [hi], hb.symm⟩
  · rw [(upsert_secret_none_iff b k).mpr (Nat.lt_of_not_le hl)] at h
    simp at h

theorem upsert_preserves_inv [Witnesses Tx] {b : TransactionBuilder Tx} {k : SecretKey}
    {i : Nat} {b' : TransactionBuilder Tx} (h : b.upsert_secret k = some (i, b'))
    (hI : LedgerInv b) : LedgerInv b' := by
  obtain ⟨hl, hcase⟩ := upsert_secret_some h
  rcases hcase with ⟨_, hb⟩ | ⟨_, _, htx, hsk, _⟩
  · exact hb ▸ hI
  · intro kv hkv
    rw [htx, Witnesses.witnesses_set, List.length_append]
    rw [hsk] at hkv
    rcases SignKeys.mem_insert _ _ _ kv hkv with hm | hm
    · have := hI kv hm
      omega
    · simp [hm]

theorem upsert_preserves_sorted [Witnesses Tx] {b : TransactionBuilder Tx} {k : SecretKey}
    {i : Nat} {b' : TransactionBuilder Tx} (h : b.upsert_secret k = some (i, b'))
    (hS : LedgerSorted b) : LedgerSorted b' := by
  obtain ⟨hl, hcase⟩ := upsert_secret_some h
  rcases hcase with ⟨_, hb⟩ | ⟨_, _, _, hsk, _⟩
  · exact hb ▸ hS
  · unfold LedgerSorted at hS ⊢
    rw [hsk]
    exact SignKeys.sorted_insert _ _ _ hS

theorem applyOpScript_preserves {b b' : TransactionBuilder Script} {op : Op}
    (h : b.applyOpScript op = some b') (hI : LedgerInv b) (hS : LedgerSorted b) :
    LedgerInv b' ∧ LedgerSorted b' := by
  cases op with
  | add_witness w =>
    rw [applyOpScript, Option.some.injEq] at h
    subst h
    refine ⟨fun kv hkv => ?_, hS⟩
    have hlt := hI kv hkv
    simp only [witnesses_script_eq] at hlt
    simp only [add_witness, set_witnesses_script_eq, witnesses_script_eq,
      List.length_append, List.length_singleton]
    omega
  | sign_key k =>
    rw [applyOpScript, Option.map_eq_some'] at h
    obtain ⟨⟨i, b₁⟩, hup, hb⟩ := h
    subst hb
    exact ⟨upsert_preserves_inv hup hI, upsert_preserves_sorted hup hS⟩
  | unsigned_coin k u a aid tp =>
    rw [applyOpScript, Option.map_eq_some'] at h
    obtain ⟨⟨i, b₁⟩, hup, hb⟩ := h
    have h1 : LedgerInv b₁ := upsert_preserves_inv hup hI
    have h2 : LedgerSorted b₁ := upsert_preserves_sorted hup hS
    subst hb
    exact ⟨fun kv hkv => h1 kv hkv, h2⟩
  | unsigned_message k s n a d =>
    rw [applyOpScript, Option.map_eq_some'] at h
    obtain ⟨⟨i, b₁⟩, hup, hb⟩ := h
    have h1 : LedgerInv b₁ := upsert_preserves_inv hup hI
    have h2 : LedgerSorted b₁ := upsert_preserves_sorted hup hS
    subst hb
    exact ⟨fun kv hkv => h1 kv hkv, h2⟩
  | add_input i =>
    rw [applyOpScript, Option.some.injEq] at h
    subst h
    exact ⟨fun kv hkv => hI kv hkv, hS⟩
  | add_output o =>
    rw [applyOpScript, Option.some.injEq] at h
    subst h
    exact ⟨fun kv hkv => hI kv hkv, hS⟩
  | tip v =>
    rw [applyOpScript, Option.some.injEq] at h
    subst h
    exact ⟨fun kv hkv => hI kv hkv, hS⟩
  | maturity v =>
    rw [applyOpScript, Option.some.injEq] at h
    subst h
    exact ⟨fun kv hkv => hI kv hkv, hS⟩
  | witness_limit v =>
    rw [applyOpScript, Option.some.injEq] at h
    subst h
    exact ⟨fun kv hkv => hI kv hkv, hS⟩
  | max_fee_limit v =>
    rw [applyOpScript, Option.some.injEq] at h
    subst h
    exact ⟨fun kv hkv => hI kv hkv, hS⟩
  | with_chain_id c =>
    rw [applyOpScript, Option.some.injEq] at h
    subst h
    exact ⟨fun kv hkv => hI kv hkv, hS⟩
  | with_params p =>
    rw [applyOpScript, Option.some.injEq] at h
    subst h
    exact ⟨fun kv hkv => hI kv hkv, hS⟩

theorem applyOpCreate_preserves {b b' : TransactionBuilder Create} {op : Op}
    (h : b.applyOpCreate op = some b') (hI : LedgerInv b) (hS : LedgerSorted b) :
    LedgerInv b' ∧ LedgerSorted b' := by
  cases op with
  | add_witness w =>
    rw [applyOpCreate, Option.some.injEq] at h
    subst h
    refine ⟨fun kv hkv => ?_, hS⟩
    have hlt := hI kv hkv
    simp only [witnesses_create_eq] at hlt
    simp only [add_witness, set_witnesses_create_eq, witnesses_create_eq,
      List.length_append, List.length_singleton]
    omega
  | sign_key k =>
    rw [applyOpCreate, Option.map_eq_some'] at h
    obtain ⟨⟨i, b₁⟩, hup, hb⟩ := h
    subst hb
    exact ⟨upsert_preserves_inv hup hI, upsert_preserves_sorted hup hS⟩
  | unsigned_coin k u a aid tp =>
    rw [applyOpCreate, Option.map_eq_some'] at h
    obtain ⟨⟨i, b₁⟩, hup, hb⟩ := h
    have h1 : LedgerInv b₁ := upsert_preserves_inv hup hI
    have h2 : LedgerSorted b₁ := upsert_preserves_sorted hup hS
    subst hb
    exact ⟨fun kv hkv => h1 kv hkv, h2⟩
  | unsigned_message k s n a d =>
    rw [applyOpCreate, Option.map_eq_some'] at h
    obtain ⟨⟨i, b₁⟩, hup, hb⟩ := h
    have h1 : LedgerInv b₁ := upsert_preserves_inv hup hI
    have h2 : LedgerSorted b₁ := upsert_preserves_sorted hup hS
    subst hb
    exact ⟨fun kv hkv => h1 kv hkv, h2⟩
  | add_input i =>
    rw [applyOpCreate, Option.some.injEq] at h
    subst h
    exact ⟨fun kv hkv => hI kv hkv, hS⟩
  | add_output o =>
    rw [applyOpCreate, Option.some.injEq] at h
    subst h
    exact ⟨fun kv hkv => hI kv hkv, hS⟩
  | tip v =>
    rw [applyOpCreate, Option.some.injEq] at h
    subst h
    exact ⟨fun kv hkv => hI kv hkv, hS⟩
  | maturity v =>
    rw [applyOpCreate, Option.some.injEq] at h
    subst h
    exact ⟨fun kv hkv => hI kv hkv, hS⟩
  | witness_limit v =>
    rw [applyOpCreate, Option.some.injEq] at h
    subst h
    exact ⟨fun kv hkv => hI kv hkv, hS⟩
  | max_fee_limit v =>
    rw [applyOpCreate, Option.some.injEq] at h
    subst h
    exact ⟨fun kv hkv => hI kv hkv, hS⟩
  | with_chain_id c =>
    rw [applyOpCreate, Option.some.injEq] at h
    subst h
    exact ⟨fun kv hkv => hI kv hkv, hS⟩
  | with_params p =>
    rw [applyOpCreate, Option.some.injEq] at h
    subst h
    exact ⟨fun kv hkv => hI kv hkv, hS⟩

theorem runScript_preserves : ∀ (ops : List Op) (b b' : TransactionBuilder Script),
    runScript ops b = some b' → LedgerInv b → LedgerSorted b →
    LedgerInv b' ∧ LedgerSorted b'
  | [], b, b', h, hI, hS => by
      rw [runScript, Option.some.injEq] at h
      subst h
      exact ⟨hI, hS⟩
  | op :: ops, b, b', h, hI, hS => by
      rw [runScript] at h
      rcases hap : b.applyOpScript op with _ | b₁ <;> rw [hap] at h
      · simp at h
      · obtain ⟨h1, h2⟩ := applyOpScript_preserves hap hI hS
        exact runScript_preserves ops b₁ b' h h1 h2

theorem runCreate_preserves : ∀ (ops : List Op) (b b' : TransactionBuilder Create),
    runCreate ops b = some b' → LedgerInv b → LedgerSorted b →
    LedgerInv b' ∧ LedgerSorted b'
  | [], b, b', h, hI, hS => by
      rw [runCreate, Option.some.injEq] at h
      subst h
      exact ⟨hI, hS⟩
  | op :: ops, b, b', h, hI, hS => by
      rw [runCreate] at h
      rcases hap : b.applyOpCreate op with _ | b₁ <;> rw [hap] at h
      · simp at h
      · obtain ⟨h1, h2⟩ := applyOpCreate_preserves hap hI hS
        exact runCreate_preserves ops b₁ b' h h1 h2

theorem ledgerInv_script (s d : List Nat) : LedgerInv (script s d) := by
  intro kv hkv
  simp [script, with_tx] at hkv

theorem ledgerSorted_script (s d : List Nat) : LedgerSorted (script s d) := by
  simp [LedgerSorted, script, with_tx]

theorem ledgerInv_create (bc : Witness) (salt : Nat) (slots : List StorageSlot) :
    LedgerInv (create bc salt slots) := by
  intro kv hkv
  simp [create, with_tx] at hkv

theorem ledgerSorted_create (bc : Witness) (salt : Nat) (slots : List StorageSlot) :
    LedgerSorted (create bc salt slots) := by
  simp [LedgerSorted, create, with_tx]

theorem upsert_witnesses_cases [Witnesses Tx] {b : TransactionBuilder Tx} {k : SecretKey}
    {i : Nat} {b' : TransactionBuilder Tx} (h : b.upsert_secret k = some (i, b')) :
    Witnesses.witnesses b'.tx = Witnesses.witnesses b.tx ∨
    Witnesses.witnesses b'.tx = Witnesses.witnesses b.tx ++ [Witness.default] := by
  obtain ⟨hl, hcase⟩ := upsert_secret_some h
  rcases hcase with ⟨_, hb⟩ | ⟨_, _, htx, _, _⟩
  · exact Or.inl (hb ▸ rfl)
  · exact Or.inr (by rw [htx, Witnesses.witnesses_set])

theorem upsert_create_slots {b : TransactionBuilder Create} {k : SecretKey}
    {i : Nat} {b' : TransactionBuilder Create} (h : b.upsert_secret k = some (i, b')) :
    b'.tx.storage_slots = b.tx.storage_slots := by
  obtain ⟨hl, hcase⟩ := upsert_secret_some h
  rcases hcase with ⟨_, hb⟩ | ⟨_, _, htx, _, _⟩
  · rw [hb]
  · rw [htx]
    rfl

theorem applyOpCreate_slots {b b' : TransactionBuilder Create} {op : Op}
    (h : b.applyOpCreate op = some b') :
    b'.tx.storage_slots = b.tx.storage_slots := by
  cases op with
  | sign_key k =>
    rw [applyOpCreate, Option.map_eq_some'] at h
    obtain ⟨⟨i, b₁⟩, hup, hb⟩ := h
    subst hb
    exact upsert_create_slots hup
  | unsigned_coin k u a aid tp =>
    rw [applyOpCreate, Option.map_eq_some'] at h
    obtain ⟨⟨i, b₁⟩, hup, hb⟩ := h
    have := upsert_create_slots hup
    subst hb
    exact this
  | unsigned_message k s n a d =>
    rw [applyOpCreate, Option.map_eq_some'] at h
    obtain ⟨⟨i, b₁⟩, hup, hb⟩ := h
    have := upsert_create_slots hup
    subst hb
    exact this
  | add_witness w =>
    rw [applyOpCreate, Option.some.injEq] at h
    subst h
    rfl
  | add_input i =>
    rw [applyOpCreate, Option.some.injEq] at h
    subst h
    rfl
  | add_output o =>
    rw [applyOpCreate, Option.some.injEq] at h
    subst h
    rfl
  | tip v =>
    rw [applyOpCreate, Option.some.injEq] at h
    subst h
    rfl
  | maturity v =>
    rw [applyOpCreate, Option.some.injEq] at h
    subst h
    rfl
  | witness_limit v =>
    rw [applyOpCreate, Option.some.injEq] at h
    subst h
    rfl
  | max_fee_limit v =>
    rw [applyOpCreate, Option.some.injEq] at h
    subst h
    rfl
  | with_chain_id c =>
    rw [applyOpCreate, Option.some.injEq] at h
    subst h
    rfl
  | with_params p =>
    rw [applyOpCreate, Option.some.injEq] at h
    subst h
    rfl

theorem runCreate_slots : ∀ (ops : List Op) (b b' : TransactionBuilder Create),
    runCreate ops b = some b' → b'.tx.storage_slots = b.tx.storage_slots
  | [], b, b', h => by
      rw [runCreate, Option.some.injEq] at h
      rw [h]
  | op :: ops, b, b', h => by
      rw [runCreate] at h
      rcases hap : b.applyOpCreate op with _ | b₁ <;> rw [hap] at h
      · simp at h
      · rw [runCreate_slots ops b₁ b' h, applyOpCreate_slots hap]

theorem foldl_sign_create_slots (c : Nat) : ∀ (l : SignKeys) (t : Create),
    (l.foldl (fun t kv => Signable.sign_inputs t kv.1 c) t).storage_slots = t.storage_slots
  | [], _ => rfl
  | kv :: l, t => by
      rw [List.foldl_cons, foldl_sign_create_slots c l]
      rfl

theorem finalize_create_slots (b : TransactionBuilder Create) :
    b.finalize_inner.storage_slots = b.tx.storage_slots := by
  unfold finalize_inner
  rw [precompute_create_eq]
  exact foldl_sign_create_slots _ _ _

theorem default_append (l : List Witness)
    (h : l = List.replicate l.length Witness.default) :
    l ++ [Witness.default] =
      List.replicate (l ++ [Witness.default]).length Witness.default := by
  have hlen : (l ++ [Witness.default]).length = l.length + 1 := by simp
  rw [hlen, List.replicate_succ', ← h]

theorem shape_append (bc : Witness) (l : List Witness)
    (h : l = bc :: List.replicate (l.length - 1) Witness.default) :
    l ++ [Witness.default] =
      bc :: List.replicate ((l ++ [Witness.default]).length - 1) Witness.default := by
  have hlen : (l ++ [Witness.default]).length - 1 = (l.length - 1) + 1 := by
    have : l.length = (l.length - 1) + 1 := by rw [h]; simp
    simp only [List.length_append, List.length_singleton]
    omega
  rw [hlen, List.replicate_succ']
  conv_lhs => rw [h]
  simp [List.cons_append]

theorem noExplicitWitness_cons {op : Op} {ops : List Op}
    (h : noExplicitWitness (op :: ops)) :
    (∀ w, op ≠ Op.add_witness w) ∧ noExplicitWitness ops := by
  constructor
  · intro w he
    exact h w (he ▸ List.mem_cons_self op ops)
  · intro w hm
    exact h w (List.mem_cons_of_mem _ hm)

theorem applyOpScript_defaultW {b b' : TransactionBuilder Script} {op : Op}
    (h : b.applyOpScript op = some b') (hop : ∀ w, op ≠ Op.add_witness w)
    (hW : b.tx.witnesses = List.replicate b.tx.witnesses.length Witness.default) :
    b'.tx.witnesses = List.replicate b'.tx.witnesses.length Witness.default := by
  have up : ∀ {k : SecretKey} {i : Nat} {b₁ : TransactionBuilder Script},
      b.upsert_secret k = some (i, b₁) →
      b₁.tx.witnesses = List.replicate b₁.tx.witnesses.length Witness.default := by
    intro k i b₁ hup
    rcases upsert_witnesses_cases hup with he | he <;>
      rw [witnesses_script_eq, witnesses_script_eq] at he <;> rw [he]
    · exact hW
    · exact default_append _ hW
  cases op with
  | add_witness w => exact absurd rfl (hop w)
  | sign_key k =>
    rw [applyOpScript, Option.map_eq_some'] at h
    obtain ⟨⟨i, b₁⟩, hup, hb⟩ := h
    subst hb
    exact up hup
  | unsigned_coin k u a aid tp =>
    rw [applyOpScript, Option.map_eq_some'] at h
    obtain ⟨⟨i, b₁⟩, hup, hb⟩ := h
    have := up hup
    subst hb
    exact this
  | unsigned_message k s n a d =>
    rw [applyOpScript, Option.map_eq_some'] at h
    obtain ⟨⟨i, b₁⟩, hup, hb⟩ := h
    have := up hup
    subst hb
    exact this
  | add_input i =>
    rw [applyOpScript, Option.some.injEq] at h
    subst h
    exact hW
  | add_output o =>
    rw [applyOpScript, Option.some.injEq] at h
    subst h
    exact hW
  | tip v =>
    rw [applyOpScript, Option.some.injEq] at h
    subst h
    exact hW
  | maturity v =>
    rw [applyOpScript, Option.some.injEq] at h
    subst h
    exact hW
  | witness_limit v =>
    rw [applyOpScript, Option.some.injEq] at h
    subst h
    exact hW
  | max_fee_limit v =>
    rw [applyOpScript, Option.some.injEq] at h
    subst h
    exact hW
  | with_chain_id c =>
    rw [applyOpScript, Option.some.injEq] at h
    subst h
    exact hW
  | with_params p =>
    rw [applyOpScript, Option.some.injEq] at h
    subst h
    exact hW

theorem runScript_defaultW : ∀ (ops : List Op) (b b' : TransactionBuilder Script),
    noExplicitWitness ops → runScript ops b = some b' →
    b.tx.witnesses = List.replicate b.tx.witnesses.length Witness.default →
    b'.tx.witnesses = List.replicate b'.tx.witnesses.length Witness.default
  | [], b, b', _, h, hW => by
      rw [runScript, Option.some.injEq] at h
      rw [← h]
      exact hW
  | op :: ops, b, b', hne, h, hW => by
      rw [runScript] at h
      rcases hap : b.applyOpScript op with _ | b₁ <;> rw [hap] at h
      · simp at h
      · obtain ⟨hop, hne'⟩ := noExplicitWitness_cons hne
        exact runScript_defaultW ops b₁ b' hne' h (applyOpScript_defaultW hap hop hW)

theorem applyOpCreate_shapeW (bc : Witness) {b b' : TransactionBuilder Create} {op : Op}
    (h : b.applyOpCreate op = some b') (hop : ∀ w, op ≠ Op.add_witness w)
    (hW : b.tx.witnesses = bc :: List.replicate (b.tx.witnesses.length - 1) Witness.default) :
    b'.tx.witnesses = bc :: List.replicate (b'.tx.witnesses.length - 1) Witness.default := by
  have up : ∀ {k : SecretKey} {i : Nat} {b₁ : TransactionBuilder Create},
      b.upsert_secret k = some (i, b₁) →
      b₁.tx.witnesses = bc :: List.replicate (b₁.tx.witnesses.length - 1) Witness.default := by
    intro k i b₁ hup
    rcases upsert_witnesses_cases hup with he | he <;>
      rw [witnesses_create_eq, witnesses_create_eq] at he <;> rw [he]
    · exact hW
    · exact shape_append _ _ hW
  cases op with
  | add_witness w => exact absurd rfl (hop w)
  | sign_key k =>
    rw [applyOpCreate, Option.map_eq_some'] at h
    obtain ⟨⟨i, b₁⟩, hup, hb⟩ := h
    subst hb
    exact up hup
  | unsigned_coin k u a aid tp =>
    rw [applyOpCreate, Option.map_eq_some'] at h
    obtain ⟨⟨i, b₁⟩, hup, hb⟩ := h
    have := up hup
    subst hb
    exact this
  | unsigned_message k s n a d =>
    rw [applyOpCreate, Option.map_eq_some'] at h
    obtain ⟨⟨i, b₁⟩, hup, hb⟩ := h
    have := up hup
    subst hb
    exact this
  | add_input i =>
    rw [applyOpCreate, Option.some.injEq] at h
    subst h
    exact hW
  | add_output o =>
    rw [applyOpCreate, Option.some.injEq] at h
    subst h
    exact hW
  | tip v =>
    rw [applyOpCreate, Option.some.injEq] at h
    subst h
    exact hW
  | maturity v =>
    rw [applyOpCreate, Option.some.injEq] at h
    subst h
    exact hW
  | witness_limit v =>
    rw [applyOpCreate, Option.some.injEq] at h
    subst h
    exact hW
  | max_fee_limit v =>
    rw [applyOpCreate, Option.some.injEq] at h
    subst h
    exact hW
  | with_chain_id c =>
    rw [applyOpCreate, Option.some.injEq] at h
    subst h
    exact hW
  | with_params p =>
    rw [applyOpCreate, Option.some.injEq] at h
    subst h
    exact hW

theorem runCreate_shapeW (bc : Witness) :
    ∀ (ops : List Op) (b b' : TransactionBuilder Create),
    noExplicitWitness ops → runCreate ops b = some b' →
    b.tx.witnesses = bc :: List.replicate (b.tx.witnesses.length - 1) Witness.default →
    b'.tx.witnesses = bc :: List.replicate (b'.tx.witnesses.length - 1) Witness.default
  | [], b, b', _, h, hW => by
      rw [runCreate, Option.some.injEq] at h
      rw [← h]
      exact hW
  | op :: ops, b, b', hne, h, hW => by
      rw [runCreate] at h
      rcases hap : b.applyOpCreate op with _ | b₁ <;> rw [hap] at h
      · simp at h
      · obtain ⟨hop, hne'⟩ := noExplicitWitness_cons hne
        exact runCreate_shapeW bc ops b₁ b' hne' h (applyOpCreate_shapeW bc hap hop hW)

theorem upsert_fresh_out [Witnesses Tx] {b : TransactionBuilder Tx} {k : SecretKey}
    (hf : b.sign_keys.find? k = none)
    (hl : (Witnesses.witnesses b.tx).length ≤ 255) :
    ∃ b₁, b.upsert_secret k = some ((Witnesses.witnesses b.tx).length, b₁) ∧
      (Witnesses.witnesses b₁.tx).length = (Witnesses.witnesses b.tx).length + 1 ∧
      (∀ k', k' ≠ k → b₁.sign_keys.find? k' = b.sign_keys.find? k') := by
  refine ⟨_, upsert_secret_fresh b k hf hl, ?_, ?_⟩
  · rw [Witnesses.witnesses_set, List.length_append]
    rfl
  · intro k' hne
    exact SignKeys.find?_insert_ne b.sign_keys k k' _ hne

theorem registerAll_spec [Witnesses Tx] :
    ∀ (ks : List SecretKey) (b : TransactionBuilder Tx),
    ks.Nodup → (∀ k ∈ ks, b.sign_keys.find? k = none) →
    (Witnesses.witnesses b.tx).length + ks.length ≤ 256 →
    ∃ b', registerAll ks b =
        some (List.range' (Witnesses.witnesses b.tx).length ks.length, b') ∧
      (Witnesses.witnesses b'.tx).length =
        (Witnesses.witnesses b.tx).length + ks.length
  | [], b, _, _, _ => ⟨b, rfl, by simp⟩
  | k :: ks, b, hnd, hf, hl => by
      have hfk : b.sign_keys.find? k = none := hf k (List.mem_cons_self k ks)
      have hlb : (Witnesses.witnesses b.tx).length ≤ 255 := by
        rw [List.length_cons] at hl
        omega
      obtain ⟨b₁, hup, hlen1, hpres⟩ := upsert_fresh_out hfk hlb
      have hf1 : ∀ k' ∈ ks, b₁.sign_keys.find? k' = none := by
        intro k' hk'
        have hne : k' ≠ k := fun he => (List.nodup_cons.mp hnd).1 (he ▸ hk')
        rw [hpres k' hne]
        exact hf k' (List.mem_cons_of_mem _ hk')
      have hl1 : (Witnesses.witnesses b₁.tx).length + ks.length ≤ 256 := by
        rw [hlen1]
        rw [List.length_cons] at hl
        omega
      obtain ⟨b', hreg, hlen'⟩ :=
        registerAll_spec ks b₁ (List.nodup_cons.mp hnd).2 hf1 hl1
      refine ⟨b', ?_, ?_⟩
      · rw [registerAll, hup]
        show (match registerAll ks b₁ with
              | none => none
              | some (is, b'') =>
                  some ((Witnesses.witnesses b.tx).length :: is, b'')) =
            some (List.range' (Witnesses.witnesses b.tx).length (k :: ks).length, b')
        rw [hreg, hlen1]
        rfl
      · rw [hlen', hlen1, List.length_cons]
        omega

theorem upsert_iter_fixed [Witnesses Tx] {b b₁ : TransactionBuilder Tx}
    {k : SecretKey} {i : Nat} (h1 : b.upsert_secret k = some (i, b₁))
    (hfix : b₁.upsert_secret k = some (i, b₁)) :
    ∀ N, 1 ≤ N → upsert_iter b k N = some (i, b₁) := by
  intro N hN
  induction N with
  | zero => omega
  | succ n ih =>
    cases n with
    | zero => exact h1
    | succ m =>
      show (match upsert_iter b k (m + 1) with
            | some (_, b') => b'.upsert_secret k
            | none => none) = some (i, b₁)
      rw [ih (by omega)]
      exact hfix

theorem upsert_first_then_stable [Witnesses Tx] {b b₁ : TransactionBuilder Tx}
    {k : SecretKey} {i : Nat} (hf : b.sign_keys.find? k = none)
    (h : b.upsert_secret k = some (i, b₁))
    (hl : (Witnesses.witnesses b₁.tx).length ≤ 255) :
    i = (Witnesses.witnesses b.tx).length ∧
    Witnesses.witnesses b₁.tx = Witnesses.witnesses b.tx ++ [Witness.default] ∧
    b₁.sign_keys.find? k = some i ∧
    ∀ N, 1 ≤ N → upsert_iter b k N = some (i, b₁) := by
  obtain ⟨hl0, hcase⟩ := upsert_secret_some h
  rcases hcase with ⟨hk, _⟩ | ⟨_, hi, htx, hsk, _⟩
  · rw [hf] at hk
    cases hk
  have hfind : b₁.sign_keys.find? k = some i := by
    rw [hsk, hi]
    exact SignKeys.find?_insert_self _ _ _ hf
  have hwit : Witnesses.witnesses b₁.tx =
      Witnesses.witnesses b.tx ++ [Witness.default] := by
    rw [htx, Witnesses.witnesses_set]
  have hfix : b₁.upsert_secret k = some (i, b₁) :=
    upsert_secret_known b₁ k i hfind hl
  exact ⟨hi, hwit, hfind, upsert_iter_fixed h hfix⟩

end TransactionBuilder

/-! ## Claims -/

set_option maxRecDepth 20000 in
/-- C1 (counterexample to the claim as stated): on a `Script` builder that
already holds 255 witnesses, the first registration of a key succeeds with
index 255, but the immediately following registration of the same key panics
instead of returning the recorded index. -/
theorem spec_C1_cex :
    Option.map (·.1) (c1Base.upsert_secret 0) = some 255 ∧
    c1After.upsert_secret 0 = none := ⟨rfl, rfl⟩

/-- C1 (amended): on every builder that supports signing-key registration
(`Script` and `Create` alike), provided no registration trips the fatal
one-byte witness bound, registering a key `N ≥ 1` times appends exactly one
placeholder witness, on the first registration only; every later registration
returns the index recorded at first insertion and leaves the builder
unchanged. -/
theorem spec_C1 :
    (∀ (b : TransactionBuilder Script) (k : SecretKey) (i : Nat)
      (b₁ : TransactionBuilder Script),
      b.sign_keys.find? k = none →
      b.upsert_secret k = some (i, b₁) →
      b₁.tx.witnesses.length ≤ 255 →
      i = b.tx.witnesses.length ∧
      b₁.tx.witnesses = b.tx.witnesses ++ [Witness.default] ∧
      b₁.sign_keys.find? k = some i ∧
      ∀ N, 1 ≤ N → upsert_iter b k N = some (i, b₁)) ∧
    (∀ (b : TransactionBuilder Create) (k : SecretKey) (i : Nat)
      (b₁ : TransactionBuilder Create),
      b.sign_keys.find? k = none →
      b.upsert_secret k = some (i, b₁) →
      b₁.tx.witnesses.length ≤ 255 →
      i = b.tx.witnesses.length ∧
      b₁.tx.witnesses = b.tx.witnesses ++ [Witness.default] ∧
      b₁.sign_keys.find? k = some i ∧
      ∀ N, 1 ≤ N → upsert_iter b k N = some (i, b₁)) :=
  ⟨fun _ _ _ _ hf h hl => upsert_first_then_stable hf h hl,
   fun _ _ _ _ hf h hl => upsert_first_then_stable hf h hl⟩

/-- C1 witness: key 5 registered three times keeps index 0 on a fresh
`Script` builder and index 1 on a fresh `Create` builder (slot 0 is the
bytecode), together with the one-placeholder builder of the first
registration. -/
theorem spec_C1_witness :
    upsert_iter (script ([] : List Nat) ([] : List Nat)) 5 3 = some (0, c1W) ∧
    upsert_iter (create [7] 0 []) 5 3 = some (1, c1WC) :=
  ⟨(spec_C1.1 (script [] []) 5 0 c1W rfl rfl (by decide)).2.2.2 3 (by omega),
   (spec_C1.2 (create [7] 0 []) 5 1 c1WC rfl rfl (by decide)).2.2.2 3 (by omega)⟩

set_option maxRecDepth 20000 in
/-- C2 (counterexample to the claim as stated): a `Script` builder with 256
explicitly pushed witnesses and zero registered signing keys panics on
registration, although the distinct-key count (0) is nowhere near the
one-byte range. -/
theorem spec_C2_cex :
    c2Base.sign_keys.length = 0 ∧ c2Base.upsert_secret 0 = none := ⟨rfl, rfl⟩

/-- C2 (amended): signing-key registration panics if and only if the draft's
witness-sequence length at call time exceeds 255 (the `u8::try_from` bound on
the witness count, not on the distinct-key count). -/
theorem spec_C2 :
    (∀ (b : TransactionBuilder Script) (k : SecretKey),
      b.upsert_secret k = none ↔ 255 < b.tx.witnesses.length) ∧
    (∀ (b : TransactionBuilder Create) (k : SecretKey),
      b.upsert_secret k = none ↔ 255 < b.tx.witnesses.length) :=
  ⟨fun b k => upsert_secret_none_iff b k, fun b k => upsert_secret_none_iff b k⟩

/-- C3: `finalize` and `finalize_without_signature` leave the builder (draft,
parameter snapshot, ledger) exactly as it was, so it can be mutated further
and finalized again, each call observing only the state present at the call. -/
theorem spec_C3 :
    ∀ (b : TransactionBuilder Script) (c : TransactionBuilder Create)
      (m : TransactionBuilder Mint) (ops : List Op),
    b.finalize_call.2 = b ∧ b.finalize_without_signature_call.2 = b ∧
    c.finalize_call.2 = c ∧ c.finalize_without_signature_call.2 = c ∧
    m.mint_finalize_call.2 = m ∧
    runScript ops b.finalize_call.2 = runScript ops b ∧
    runCreate ops c.finalize_call.2 = runCreate ops c :=
  fun _ _ _ _ => ⟨rfl, rfl, rfl, rfl, rfl, rfl, rfl⟩

/-- C4: the `Create` constructor sorts the storage slots ascending by key,
sets bytecode witness index 0 and bytecode length `len / 4`, stores the
bytecode as sole witness slot 0, and the finalized storage-slot sequence of
any builder descended from it stays sorted. -/
theorem spec_C4 :
    ∀ (bc : Witness) (salt : Nat) (slots : List StorageSlot),
    List.Sorted slotLe (create bc salt slots).tx.storage_slots ∧
    (create bc salt slots).tx.bytecode_witness_index = 0 ∧
    (create bc salt slots).tx.bytecode_length = bc.length / 4 ∧
    (create bc salt slots).tx.witnesses = [bc] ∧
    ∀ (ops : List Op) (b : TransactionBuilder Create),
      runCreate ops (create bc salt slots) = some b →
      List.Sorted slotLe b.finalize_inner.storage_slots := by
  intro bc salt slots
  have hs : List.Sorted slotLe (create bc salt slots).tx.storage_slots :=
    List.sorted_insertionSort slotLe slots
  refine ⟨hs, rfl, rfl, rfl, ?_⟩
  intro ops b hrun
  rw [finalize_create_slots, runCreate_slots ops _ b hrun]
  exact hs

/-- C4 witness: slots given with keys in order 3, 1, 2 finalize sorted. -/
theorem spec_C4_witness :
    List.Sorted slotLe
      (create [1, 2, 3, 4, 5] 9
        [⟨3, 0⟩, ⟨1, 0⟩, ⟨2, 0⟩]).finalize_inner.storage_slots :=
  (spec_C4 [1, 2, 3, 4, 5] 9 [⟨3, 0⟩, ⟨1, 0⟩, ⟨2, 0⟩]).2.2.2.2 [] _ rfl

/-- C5: on a fresh `Script` builder, `n` distinct keys get witness indices
exactly `0, …, n-1`; on a fresh `Create` builder they get `1, …, n`, slot 0
being the bytecode. -/
theorem spec_C5 :
    ∀ (s d : List Nat) (bc : Witness) (salt : Nat) (slots : List StorageSlot)
      (ks : List SecretKey), ks.Nodup →
    (ks.length ≤ 256 →
      Option.map Prod.fst (registerAll ks (script s d)) =
        some (List.range ks.length)) ∧
    (ks.length ≤ 255 →
      Option.map Prod.fst (registerAll ks (create bc salt slots)) =
        some (List.range' 1 ks.length)) := by
  intro s d bc salt slots ks hnd
  constructor
  · intro hlen
    obtain ⟨b', hreg, _⟩ := registerAll_spec ks (script s d) hnd (fun k _ => rfl)
      (by rw [show (Witnesses.witnesses (script s d).tx).length = 0 from rfl]; omega)
    rw [hreg, List.range_eq_range']
    rfl
  · intro hlen
    obtain ⟨b', hreg, _⟩ := registerAll_spec ks (create bc salt slots) hnd
      (fun k _ => rfl)
      (by rw [show (Witnesses.witnesses (create bc salt slots).tx).length = 1 from rfl]
          omega)
    rw [hreg]
    rfl

/-- C5 witness: three distinct keys get indices `[0, 1, 2]` on a fresh
`Script` builder and `[1, 2, 3]` on a fresh `Create` builder. -/
theorem spec_C5_witness :
    Option.map Prod.fst (registerAll [5, 9, 7] (script ([] : List Nat) [])) =
      some (List.range [5, 9, 7].length) ∧
    Option.map Prod.fst (registerAll [5, 9, 7] (create [1] 0 [])) =
      some (List.range' 1 [5, 9, 7].length) :=
  ⟨(spec_C5 [] [] [1] 0 [] [5, 9, 7] (by decide)).1 (by decide),
   (spec_C5 [] [] [1] 0 [] [5, 9, 7] (by decide)).2 (by decide)⟩

/-- C6: `finalize` clones the draft, signs for every ledger key — iterated
in ascending key order, the ledger's natural order — with the snapshot's
chain id, and runs `precompute` only after all signing. -/
theorem spec_C6 :
    ∀ (s d : List Nat) (bc : Witness) (salt : Nat) (slots : List StorageSlot)
      (ops opsC : List Op) (b : TransactionBuilder Script)
      (c : TransactionBuilder Create),
    (runScript ops (script s d) = some b →
      b.sign_keys.Pairwise (fun p q => p.1 < q.1) ∧
      b.finalize_inner =
        Cacheable.precompute
          (b.sign_keys.foldl
            (fun t kv => Signable.sign_inputs t kv.1 b.get_chain_id) b.tx)
          b.get_chain_id) ∧
    (runCreate opsC (create bc salt slots) = some c →
      c.sign_keys.Pairwise (fun p q => p.1 < q.1) ∧
      c.finalize_inner =
        Cacheable.precompute
          (c.sign_keys.foldl
            (fun t kv => Signable.sign_inputs t kv.1 c.get_chain_id) c.tx)
          c.get_chain_id) := by
  intro s d bc salt slots ops opsC b c
  constructor
  · intro h
    exact ⟨(runScript_preserves ops _ b h (ledgerInv_script s d)
        (ledgerSorted_script s d)).2, rfl⟩
  · intro h
    exact ⟨(runCreate_preserves opsC _ c h (ledgerInv_create bc salt slots)
        (ledgerSorted_create bc salt slots)).2, rfl⟩

/-- C6 witness: after registering keys 9 then 4, the ledger iterates in
ascending key order 4, 9. -/
theorem spec_C6_witness :
    ((runScript [Op.sign_key 9, Op.sign_key 4]
        (script ([] : List Nat) [])).getD (script [] [])).sign_keys.Pairwise
      (fun p q => p.1 < q.1) :=
  ((spec_C6 [] [] [] 0 [] [Op.sign_key 9, Op.sign_key 4] [] _
      (create [] 0 [])).1 rfl).1

/-- C7: `finalize_without_signature` copies the builder's witness sequence
unchanged (the signing phase is skipped), and on any builder history without
explicit witness pushes every slot is default except `Create`'s bytecode
slot 0. -/
theorem spec_C7 :
    (∀ (b : TransactionBuilder Script),
      b.finalize_without_signature_inner.witnesses = b.tx.witnesses) ∧
    (∀ (c : TransactionBuilder Create),
      c.finalize_without_signature_inner.witnesses = c.tx.witnesses) ∧
    (∀ (s d : List Nat) (ops : List Op) (b : TransactionBuilder Script),
      noExplicitWitness ops → runScript ops (script s d) = some b →
      b.finalize_without_signature_inner.witnesses =
        List.replicate b.tx.witnesses.length Witness.default) ∧
    (∀ (bc : Witness) (salt : Nat) (slots : List StorageSlot) (ops : List Op)
      (c : TransactionBuilder Create),
      noExplicitWitness ops → runCreate ops (create bc salt slots) = some c →
      c.finalize_without_signature_inner.witnesses =
        bc :: List.replicate (c.tx.witnesses.length - 1) Witness.default) := by
  refine ⟨fun _ => rfl, fun _ => rfl, ?_, ?_⟩
  · intro s d ops b hne hrun
    exact runScript_defaultW ops _ b hne hrun rfl
  · intro bc salt slots ops c hne hrun
    exact runCreate_shapeW bc ops _ c hne hrun rfl

/-- C7 witness: a `Create` builder with bytecode `[7]` and one registered
key finalizes unsigned to the bytecode followed by one default witness. -/
theorem spec_C7_witness :
    ((runCreate [Op.sign_key 9] (create [7] 0 [])).getD
        (create [7] 0 [])).finalize_without_signature_inner.witnesses =
      [7] :: List.replicate
        (((runCreate [Op.sign_key 9] (create [7] 0 [])).getD
            (create [7] 0 [])).tx.witnesses.length - 1) Witness.default :=
  spec_C7.2.2.2 [7] 0 [] [Op.sign_key 9] _ (fun w => by simp) rfl

/-- C8: for a `Mint` builder, `finalize` and `finalize_without_signature`
coincide, and the operations a `Mint` builder exposes (parameter replacement
only) never touch the draft transaction, which carries no witness sequence. -/
theorem spec_C8 :
    ∀ (b : TransactionBuilder Mint) (ops : List MintOp),
    b.mint_finalize = b.mint_finalize_without_signature ∧
    (runMint ops b).tx = b.tx := by
  intro b ops
  refine ⟨rfl, ?_⟩
  induction ops generalizing b with
  | nil => rfl
  | cons op ops ih =>
    rw [runMint, ih (b.applyOpMint op)]
    cases op <;> rfl

/-- C9: two finalize calls with no intervening mutation return identical
transactions, with identical cached metadata (determinism). -/
theorem spec_C9 :
    ∀ (b : TransactionBuilder Script) (c : TransactionBuilder Create)
      (m : TransactionBuilder Mint),
    b.finalize_call.1 = b.finalize_call.2.finalize_call.1 ∧
    b.finalize_call.1.metadata = b.finalize_call.2.finalize_call.1.metadata ∧
    c.finalize_call.1 = c.finalize_call.2.finalize_call.1 ∧
    m.mint_finalize_call.1 = m.mint_finalize_call.2.mint_finalize_call.1 :=
  fun _ _ _ => ⟨rfl, rfl, rfl, rfl⟩

/-- C10: on every reachable builder state, every witness index stored in the
signing-key ledger is strictly below the length of the draft's witness
sequence. -/
theorem spec_C10 :
    ∀ (s d : List Nat) (bc : Witness) (salt : Nat) (slots : List StorageSlot)
      (ops opsC : List Op) (b : TransactionBuilder Script)
      (c : TransactionBuilder Create),
    (runScript ops (script s d) = some b →
      ∀ kv ∈ b.sign_keys, kv.2 < b.tx.witnesses.length) ∧
    (runCreate opsC (create bc salt slots) = some c →
      ∀ kv ∈ c.sign_keys, kv.2 < c.tx.witnesses.length) := by
  intro s d bc salt slots ops opsC b c
  constructor
  · intro h kv hkv
    exact (runScript_preserves ops _ b h (ledgerInv_script s d)
      (ledgerSorted_script s d)).1 kv hkv
  · intro h kv hkv
    exact (runCreate_preserves opsC _ c h (ledgerInv_create bc salt slots)
      (ledgerSorted_create bc salt slots)).1 kv hkv

/-- C10 witness: after one coin-input registration of key 5, its recorded
index 0 is below the witness count. -/
theorem spec_C10_witness :
    ((5 : Nat), (0 : Nat)).2 <
      ((runScript [Op.unsigned_coin 5 1 2 3 (0, 0)]
          (script ([] : List Nat) [])).getD (script [] [])).tx.witnesses.length :=
  (spec_C10 [] [] [] 0 [] [Op.unsigned_coin 5 1 2 3 (0, 0)] [] _
      (create [] 0 [])).1 rfl (5, 0) (by decide)

end FuelTx
